import Mathlib

/-!
# Frontend attribute accessors of `xla/frontend_attributes.cc`

The source file holds two functions over an `HloInstruction`:

* `SetDisjointReadWriteRegionsAttr` builds a `FrontendAttributes` message whose map has the
  single entry `kXlaDisjointReadWriteRegions ↦ "true"` and hands it to
  `HloInstruction::add_frontend_attributes`;
* `HasDisjointReadWriteRegionsAttr` asks whether
  `instruction->frontend_attributes().map()` contains `kXlaDisjointReadWriteRegions`.

Both functions are embedded below as they are written.  The class `HloInstruction`, the
message `FrontendAttributes` and the constant `kXlaDisjointReadWriteRegions` are declared in
headers that are not part of the source tree at hand; they are modelled from the
specification (each such definition says so).

Maps are association lists.  The functions on them do not require the keys of their input to
be unique; every statement below holds for all lists.
-/

namespace xla

/-! ## String maps (`google::protobuf::Map<std::string, std::string>`) -/

/-- A map from attribute name to attribute value, kept as the list of its entries. -/
structure StringMap where
  entries : List (String × String)
deriving DecidableEq, Repr

namespace StringMap

/-- The map without entries (a default-constructed map). -/
def empty : StringMap := ⟨[]⟩

/-- Does some entry carry the key? (`map.contains(key)`); the values are not looked at. -/
def contains (m : StringMap) (key : String) : Bool :=
  m.entries.any (fun e => e.1 == key)

/-- The value of the first entry under the key, if any (`map.find(key)`). -/
def find (m : StringMap) (key : String) : Option String :=
  m.entries.lookup key

/-- Assignment through the subscript, `m[key] = value`: the entry under `key` is overwritten
when there is one, and created otherwise. -/
def assign (m : StringMap) (key value : String) : StringMap :=
  if m.contains key then
    ⟨m.entries.map (fun e => if e.1 == key then (key, value) else e)⟩
  else
    ⟨m.entries ++ [(key, value)]⟩

/-- Insertion that keeps an entry already stored under the key. -/
def insert (m : StringMap) (key value : String) : StringMap :=
  if m.contains key then m else ⟨m.entries ++ [(key, value)]⟩

/-- Insertion of all entries of `other`, in their order. -/
def insertAll (m other : StringMap) : StringMap :=
  other.entries.foldl (fun acc e => acc.insert e.1 e.2) m

end StringMap

/-! ## The message `FrontendAttributes` -/

/-- Modelled from the spec: the message type `FrontendAttributes` (generated from
`xla_data.proto`, which is not among the sources).  The source uses it through `map()` and
`mutable_map()` only, so it is a record with the one field `map`, a mapping from attribute
name (string) to attribute value (string). -/
structure FrontendAttributes where
  map : StringMap
deriving DecidableEq, Repr

namespace FrontendAttributes

/-- The default-constructed message, `FrontendAttributes attrs;`: its map is empty. -/
def default : FrontendAttributes := ⟨StringMap.empty⟩

/-- Access for writing, `*attrs.mutable_map()`: the message after `f` has been applied to its
map. -/
def mutable_map (attrs : FrontendAttributes) (f : StringMap → StringMap) : FrontendAttributes :=
  ⟨f attrs.map⟩

end FrontendAttributes

/-- Modelled from the spec: the attribute-name constant `xla::kXlaDisjointReadWriteRegions`
is defined in the header `xla/frontend_attributes.h`, which is not among the sources.  The
specification's scenario writes the name as `disjoint_read_write_regions`. -/
def kXlaDisjointReadWriteRegions : String := "disjoint_read_write_regions"

/-! ## The instruction's attribute storage -/

/-- Modelled from the spec: the class `HloInstruction` (`xla/hlo/ir/hlo_instruction.h`, not
among the sources).  Of an instruction only its attribute storage matters here: "An
instruction owns a sequence of these maps", oldest first. -/
structure HloInstruction where
  attribute_maps : List FrontendAttributes
deriving DecidableEq, Repr

namespace HloInstruction

/-- Modelled from the spec: the state of a newly constructed instruction, "the attribute map
is created empty when an instruction is constructed", an instruction with zero attribute
maps. -/
def fresh : HloInstruction := ⟨[]⟩

/-- Modelled from the spec: `HloInstruction::add_frontend_attributes`, the instruction's
"append-one-map" operation: the given map is appended to the instruction's sequence of
attribute maps; nothing is removed and nothing is merged. -/
def add_frontend_attributes (instruction : HloInstruction)
    (frontend_attributes : FrontendAttributes) : HloInstruction :=
  ⟨instruction.attribute_maps ++ [frontend_attributes]⟩

/-- Modelled from the spec: `HloInstruction::frontend_attributes()`, the instruction's
"read-all-maps" operation.  The source reads its result through `.map()`, so the result is
one message: its map holds every attribute name that occurs in some attribute map of the
instruction.  A name that occurs in several maps is listed once, with the value of the
oldest map that has it (the specification leaves the choice of the value open). -/
def frontend_attributes (instruction : HloInstruction) : FrontendAttributes :=
  ⟨instruction.attribute_maps.foldl (fun acc attrs => acc.insertAll attrs.map) StringMap.empty⟩

end HloInstruction

/-! ## The two functions of `frontend_attributes.cc` -/

/-- The function `SetDisjointReadWriteRegionsAttr(HloInstruction* instruction)`; the
instruction after the call is returned.
```
FrontendAttributes attrs;
(*attrs.mutable_map())[xla::kXlaDisjointReadWriteRegions] = "true";
instruction->add_frontend_attributes(attrs);
```
-/
def SetDisjointReadWriteRegionsAttr (instruction : HloInstruction) : HloInstruction :=
  let attrs := FrontendAttributes.default
  let attrs := attrs.mutable_map (fun m => m.assign kXlaDisjointReadWriteRegions "true")
  instruction.add_frontend_attributes attrs

/-- The function `HasDisjointReadWriteRegionsAttr(HloInstruction* instruction)`.
```
return instruction->frontend_attributes().map().contains(
    xla::kXlaDisjointReadWriteRegions);
```
-/
def HasDisjointReadWriteRegionsAttr (instruction : HloInstruction) : Bool :=
  instruction.frontend_attributes.map.contains kXlaDisjointReadWriteRegions

/-! ## Instructions behind pointers -/

/-- Modelled from the spec: both functions take an `HloInstruction*`.  The store gives, for
every address, the instruction that lives there; "the instruction exclusively owns its
attribute maps", so each address has attribute storage of its own. -/
abbrev InstructionStore := Nat → HloInstruction

/-- Modelled from the spec: the call `p->add_frontend_attributes(attrs)` seen from the store
(`HloInstruction::add_frontend_attributes`, not among the sources).  It is the
"append-one-map" operation of the instruction at address `p`; "the instruction exclusively
owns its attribute maps" and there is "no shared mutable state across distinct
instructions", so the instructions at the other addresses take no part. -/
def InstructionStore.add_frontend_attributes (store : InstructionStore) (p : Nat)
    (attrs : FrontendAttributes) : InstructionStore :=
  Function.update store p ((store p).add_frontend_attributes attrs)

/-- Modelled from the spec: the call `p->frontend_attributes()` seen from the store
(`HloInstruction::frontend_attributes`, not among the sources).  It is the "read-all-maps"
operation of the instruction at address `p`: a read, which hands back the message together
with the store as it was. -/
def InstructionStore.frontend_attributes (store : InstructionStore) (p : Nat) :
    FrontendAttributes × InstructionStore :=
  ((store p).frontend_attributes, store)

/-- The function `SetDisjointReadWriteRegionsAttr(HloInstruction* instruction)` with its
argument as an address in the store; the store after the call is returned.
```
FrontendAttributes attrs;
(*attrs.mutable_map())[xla::kXlaDisjointReadWriteRegions] = "true";
instruction->add_frontend_attributes(attrs);
```
-/
def SetDisjointReadWriteRegionsAttrAt (store : InstructionStore) (instruction : Nat) :
    InstructionStore :=
  let attrs := FrontendAttributes.default
  let attrs := attrs.mutable_map (fun m => m.assign kXlaDisjointReadWriteRegions "true")
  InstructionStore.add_frontend_attributes store instruction attrs

/-- The function `HasDisjointReadWriteRegionsAttr(HloInstruction* instruction)` with its
argument as an address in the store; the answer is returned together with the store after
the call.
```
return instruction->frontend_attributes().map().contains(
    xla::kXlaDisjointReadWriteRegions);
```
-/
def HasDisjointReadWriteRegionsAttrCall (store : InstructionStore) (instruction : Nat) :
    Bool × InstructionStore :=
  let read := InstructionStore.frontend_attributes store instruction
  (read.1.map.contains kXlaDisjointReadWriteRegions, read.2)

/-- The answer of the call `HasDisjointReadWriteRegionsAttr(p)` on the instruction at
address `p`. -/
def HasDisjointReadWriteRegionsAttrAt (store : InstructionStore) (p : Nat) : Bool :=
  (HasDisjointReadWriteRegionsAttrCall store p).1

/-! ## Sequences of calls on one instruction -/

/-- One call that changes an instruction's attributes: the setter of this file, or
`add_frontend_attributes` with some map. -/
inductive AttrOp where
  | set : AttrOp
  | add (attrs : FrontendAttributes) : AttrOp
deriving DecidableEq, Repr

namespace AttrOp

/-- The instruction after the call. -/
def apply (op : AttrOp) (instruction : HloInstruction) : HloInstruction :=
  match op with
  | set => SetDisjointReadWriteRegionsAttr instruction
  | add attrs => instruction.add_frontend_attributes attrs

/-- Is the call an addition of a map that has an entry under
`kXlaDisjointReadWriteRegions`? -/
def addsDisjointKey (op : AttrOp) : Bool :=
  match op with
  | set => false
  | add attrs => attrs.map.contains kXlaDisjointReadWriteRegions

end AttrOp

/-- The instruction after the calls of `ops`, made from left to right. -/
def runOps (ops : List AttrOp) (instruction : HloInstruction) : HloInstruction :=
  ops.foldl (fun acc op => op.apply acc) instruction

/-- The instruction after `n` calls of `SetDisjointReadWriteRegionsAttr`. -/
def setTimes (n : Nat) (instruction : HloInstruction) : HloInstruction :=
  match n with
  | 0 => instruction
  | k + 1 => SetDisjointReadWriteRegionsAttr (setTimes k instruction)

/-- Every entry under `kXlaDisjointReadWriteRegions` in a stored map has the value `"true"`. -/
def DisjointValueTrue (i : HloInstruction) : Prop :=
  ∀ attrs ∈ i.attribute_maps, ∀ e ∈ attrs.map.entries,
    e.1 = kXlaDisjointReadWriteRegions → e.2 = "true"

/-- The message whose map has the single entry `kXlaDisjointReadWriteRegions ↦ "true"`. -/
def disjointAttrs : FrontendAttributes :=
  ⟨⟨[(kXlaDisjointReadWriteRegions, "true")]⟩⟩

/-! ## Facts about string maps and the attribute storage -/

namespace StringMap

theorem find_isSome (m : StringMap) (key : String) :
    (m.find key).isSome = m.contains key := by
  obtain ⟨l⟩ := m
  simp only [find, contains]
  induction l with
  | nil => rfl
  | cons e t ih =>
    obtain ⟨a, b⟩ := e
    by_cases h : key = a
    · subst h; simp [List.lookup]
    · have h1 : (key == a) = false := by simpa using h
      have h2 : (a == key) = false := by simpa using fun h3 => h h3.symm
      simp [List.lookup, h1, h2, ih]

theorem find_append (l t : List (String × String)) (key : String) :
    (l ++ t).lookup key = (l.lookup key).or (t.lookup key) := by
  induction l with
  | nil => simp
  | cons e r ih =>
    obtain ⟨a, b⟩ := e
    by_cases h : key = a
    · subst h; simp [List.lookup]
    · have h1 : (key == a) = false := by simpa using h
      simp [List.lookup, h1, ih]

theorem contains_insert (m : StringMap) (k v key : String) :
    (m.insert k v).contains key = (m.contains key || k == key) := by
  unfold insert
  split
  · rename_i h
    by_cases hk : k = key
    · subst hk; simp [h]
    · simp [hk]
  · simp [contains, List.any_append]

theorem find_insert (m : StringMap) (k v key : String) :
    (m.insert k v).find key = (m.find key).or (if key == k then some v else none) := by
  unfold insert
  split
  · rename_i h
    by_cases hk : key = k
    · subst hk
      have := find_isSome m key
      rw [h] at this
      cases hf : m.find key with
      | none => rw [hf] at this; simp at this
      | some x => simp
    · simp [hk]
  · simp only [find, find_append]
    congr 1
    by_cases hk : key = k
    · subst hk; simp [List.lookup]
    · have h1 : (key == k) = false := by simpa using hk
      simp [List.lookup, h1]

end StringMap

namespace StringMap

theorem insertAll_nil (m : StringMap) : m.insertAll ⟨[]⟩ = m := rfl

theorem insertAll_cons (m : StringMap) (e : String × String) (t : List (String × String)) :
    m.insertAll ⟨e :: t⟩ = (m.insert e.1 e.2).insertAll ⟨t⟩ := rfl

theorem contains_insertAll (m other : StringMap) (key : String) :
    (m.insertAll other).contains key = (m.contains key || other.contains key) := by
  obtain ⟨l⟩ := other
  induction l generalizing m with
  | nil => simp [insertAll_nil, contains]
  | cons e t ih =>
    rw [insertAll_cons, ih, contains_insert]
    simp [contains, Bool.or_assoc]

theorem find_insertAll (m other : StringMap) (key : String) :
    (m.insertAll other).find key = (m.find key).or (other.find key) := by
  obtain ⟨l⟩ := other
  induction l generalizing m with
  | nil => simp [insertAll_nil, find]
  | cons e t ih =>
    obtain ⟨a, b⟩ := e
    rw [insertAll_cons, ih, find_insert]
    by_cases hk : key = a
    · subst hk; cases m.find key <;> simp [find, List.lookup]
    · have h1 : (key == a) = false := by simpa using hk
      cases m.find key <;> simp [find, List.lookup, h1]

end StringMap

namespace HloInstruction

theorem frontend_attributes_add (i : HloInstruction) (a : FrontendAttributes) :
    (i.add_frontend_attributes a).frontend_attributes
      = ⟨i.frontend_attributes.map.insertAll a.map⟩ := by
  simp [add_frontend_attributes, frontend_attributes, List.foldl_append]

theorem frontend_attributes_contains (i : HloInstruction) (key : String) :
    i.frontend_attributes.map.contains key
      = i.attribute_maps.any (fun attrs => attrs.map.contains key) := by
  obtain ⟨l⟩ := i
  induction l using List.reverseRecOn with
  | nil => rfl
  | append_singleton t a ih =>
    have h := frontend_attributes_add ⟨t⟩ a
    simp only [add_frontend_attributes] at h
    rw [h]
    simp only [StringMap.contains_insertAll, ih, List.any_append, List.any_cons, List.any_nil,
      Bool.or_false]

end HloInstruction

namespace StringMap

theorem mem_of_find (m : StringMap) (key value : String) (h : m.find key = some value) :
    (key, value) ∈ m.entries := by
  obtain ⟨l⟩ := m
  simp only [find] at h
  induction l with
  | nil => simp at h
  | cons e t ih =>
    obtain ⟨a, b⟩ := e
    by_cases hk : key = a
    · subst hk
      simp [List.lookup] at h
      simp [h]
    · have h1 : (key == a) = false := by simpa using hk
      simp only [List.lookup, h1] at h
      exact List.mem_cons_of_mem _ (ih h)

theorem mem_insert (m : StringMap) (k v : String) (e : String × String)
    (h : e ∈ (m.insert k v).entries) : e ∈ m.entries ∨ e = (k, v) := by
  unfold insert at h
  split at h
  · exact Or.inl h
  · simpa using h

theorem mem_insertAll (m other : StringMap) (e : String × String)
    (h : e ∈ (m.insertAll other).entries) : e ∈ m.entries ∨ e ∈ other.entries := by
  obtain ⟨l⟩ := other
  induction l generalizing m with
  | nil => exact Or.inl h
  | cons x t ih =>
    rw [insertAll_cons] at h
    rcases ih _ h with h1 | h1
    · rcases mem_insert m x.1 x.2 e h1 with h2 | h2
      · exact Or.inl h2
      · exact Or.inr (by simp [h2])
    · exact Or.inr (List.mem_cons_of_mem _ h1)

end StringMap

namespace HloInstruction

theorem mem_frontend_attributes (i : HloInstruction) (e : String × String)
    (h : e ∈ i.frontend_attributes.map.entries) :
    ∃ attrs ∈ i.attribute_maps, e ∈ attrs.map.entries := by
  obtain ⟨l⟩ := i
  induction l using List.reverseRecOn with
  | nil => simp [frontend_attributes, StringMap.empty] at h
  | append_singleton t a ih =>
    have hadd := frontend_attributes_add ⟨t⟩ a
    simp only [add_frontend_attributes] at hadd
    rw [hadd] at h
    rcases StringMap.mem_insertAll _ _ e h with h1 | h1
    · obtain ⟨attrs, ha, he⟩ := ih h1
      exact ⟨attrs, by simp at ha ⊢; exact Or.inl ha, he⟩
    · exact ⟨a, by simp, h1⟩

end HloInstruction

theorem runOps_append (ops : List AttrOp) (op : AttrOp) (i : HloInstruction) :
    runOps (ops ++ [op]) i = op.apply (runOps ops i) := by
  simp [runOps, List.foldl_append]

theorem disjointValueTrue_add (i : HloInstruction) (a : FrontendAttributes)
    (hi : DisjointValueTrue i)
    (ha : ∀ e ∈ a.map.entries, e.1 = kXlaDisjointReadWriteRegions → e.2 = "true") :
    DisjointValueTrue (i.add_frontend_attributes a) := by
  intro attrs hattrs e he hk
  simp only [HloInstruction.add_frontend_attributes, List.mem_append, List.mem_singleton]
    at hattrs
  rcases hattrs with h | h
  · exact hi attrs h e he hk
  · subst h; exact ha e he hk

theorem disjointValueTrue_runOps (ops : List AttrOp)
    (hops : ∀ op ∈ ops, op.addsDisjointKey = false) :
    DisjointValueTrue (runOps ops HloInstruction.fresh) := by
  induction ops using List.reverseRecOn with
  | nil => intro attrs hattrs; simp [runOps, HloInstruction.fresh] at hattrs
  | append_singleton t op ih =>
    rw [runOps_append]
    have ht : DisjointValueTrue (runOps t HloInstruction.fresh) :=
      ih (fun o ho => hops o (List.mem_append_left _ ho))
    have hop : op.addsDisjointKey = false := hops op (by simp)
    cases op with
    | set =>
      refine disjointValueTrue_add _ _ ht ?_
      intro e he _
      simp only [FrontendAttributes.mutable_map, FrontendAttributes.default, StringMap.assign,
        StringMap.empty, StringMap.contains] at he
      simp at he
      simp [he]
    | add a =>
      refine disjointValueTrue_add _ _ ht ?_
      intro e he hk
      simp only [AttrOp.addsDisjointKey, StringMap.contains] at hop
      have := List.any_eq_false.mp hop e he
      simp [hk] at this

/-! ## Facts shared by the statements about the two functions -/

theorem set_eq_add (i : HloInstruction) :
    SetDisjointReadWriteRegionsAttr i = i.add_frontend_attributes disjointAttrs := rfl

theorem disjointAttrs_contains :
    disjointAttrs.map.contains kXlaDisjointReadWriteRegions = true := by
  simp [disjointAttrs, StringMap.contains]

theorem has_add (i : HloInstruction) (a : FrontendAttributes) :
    HasDisjointReadWriteRegionsAttr (i.add_frontend_attributes a)
      = (HasDisjointReadWriteRegionsAttr i || a.map.contains kXlaDisjointReadWriteRegions) := by
  simp only [HasDisjointReadWriteRegionsAttr, HloInstruction.frontend_attributes_add,
    StringMap.contains_insertAll]

theorem has_set (i : HloInstruction) :
    HasDisjointReadWriteRegionsAttr (SetDisjointReadWriteRegionsAttr i) = true := by
  rw [set_eq_add, has_add, disjointAttrs_contains, Bool.or_true]

/-! ## Facts about calls through the store -/

theorem setAt_same (store : InstructionStore) (p : Nat) :
    (SetDisjointReadWriteRegionsAttrAt store p) p = SetDisjointReadWriteRegionsAttr (store p) := by
  simp [SetDisjointReadWriteRegionsAttrAt, InstructionStore.add_frontend_attributes,
    SetDisjointReadWriteRegionsAttr]

theorem setAt_other (store : InstructionStore) (p q : Nat) (hpq : p ≠ q) :
    (SetDisjointReadWriteRegionsAttrAt store p) q = store q := by
  simp only [SetDisjointReadWriteRegionsAttrAt, InstructionStore.add_frontend_attributes]
  exact Function.update_noteq (fun h => hpq h.symm) _ _

theorem hasAt_eq (store : InstructionStore) (p : Nat) :
    HasDisjointReadWriteRegionsAttrAt store p = HasDisjointReadWriteRegionsAttr (store p) := rfl

theorem hasCall_store (store : InstructionStore) (p : Nat) :
    (HasDisjointReadWriteRegionsAttrCall store p).2 = store := rfl

/-! ## The claims -/

/-- Claim C1 (set implies query true): whatever attribute maps an instruction already
carries, after one call of `SetDisjointReadWriteRegionsAttr` the query
`HasDisjointReadWriteRegionsAttr` answers true. -/
theorem set_implies_query_true (instruction : HloInstruction) :
    HasDisjointReadWriteRegionsAttr (SetDisjointReadWriteRegionsAttr instruction) = true :=
  has_set instruction

/-- Claim C2 (query result): `HasDisjointReadWriteRegionsAttr` answers true exactly when some
attribute map of the instruction has an entry whose name is `kXlaDisjointReadWriteRegions`.
The entry's value is not constrained, so it plays no part: an instruction whose only entry is
the key mapped to an arbitrary string `value` (for example `"false"`) yields true.  Entries
under other names do not count: an instruction whose maps hold only such entries yields
false. -/
theorem query_true_iff_key_in_some_map (instruction : HloInstruction) :
    (HasDisjointReadWriteRegionsAttr instruction = true ↔
      ∃ attrs ∈ instruction.attribute_maps, ∃ e ∈ attrs.map.entries,
        e.1 = kXlaDisjointReadWriteRegions) ∧
    (∀ value : String,
      HasDisjointReadWriteRegionsAttr
        (instruction.add_frontend_attributes ⟨⟨[(kXlaDisjointReadWriteRegions, value)]⟩⟩)
        = true) ∧
    ((∀ attrs ∈ instruction.attribute_maps, ∀ e ∈ attrs.map.entries,
        e.1 ≠ kXlaDisjointReadWriteRegions) →
      HasDisjointReadWriteRegionsAttr instruction = false) := by
  have key : HasDisjointReadWriteRegionsAttr instruction = true ↔
      ∃ attrs ∈ instruction.attribute_maps, ∃ e ∈ attrs.map.entries,
        e.1 = kXlaDisjointReadWriteRegions := by
    rw [HasDisjointReadWriteRegionsAttr, HloInstruction.frontend_attributes_contains]
    simp only [List.any_eq_true, StringMap.contains, beq_iff_eq]
  refine ⟨key, ?_, ?_⟩
  · intro value
    rw [has_add]
    simp [StringMap.contains]
  · intro h
    cases hq : HasDisjointReadWriteRegionsAttr instruction with
    | false => rfl
    | true =>
      obtain ⟨attrs, ha, e, he, hk⟩ := key.mp hq
      exact absurd hk (h attrs ha e he)

/-- Witness for claim C2: an instruction whose only entry is `"_xla_sharding" ↦ "replicated"`
answers false, and answers true once the key is added with the value `"false"`. -/
theorem query_true_iff_key_in_some_map_witness :
    (∀ attrs ∈ (HloInstruction.mk [⟨⟨[("_xla_sharding", "replicated")]⟩⟩]).attribute_maps,
      ∀ e ∈ attrs.map.entries, e.1 ≠ kXlaDisjointReadWriteRegions) ∧
    HasDisjointReadWriteRegionsAttr ⟨[⟨⟨[("_xla_sharding", "replicated")]⟩⟩]⟩ = false ∧
    HasDisjointReadWriteRegionsAttr
      (HloInstruction.add_frontend_attributes ⟨[⟨⟨[("_xla_sharding", "replicated")]⟩⟩]⟩
        ⟨⟨[(kXlaDisjointReadWriteRegions, "false")]⟩⟩) = true :=
  ⟨by decide,
    (query_true_iff_key_in_some_map ⟨[⟨⟨[("_xla_sharding", "replicated")]⟩⟩]⟩).2.2 (by decide),
    (query_true_iff_key_in_some_map ⟨[⟨⟨[("_xla_sharding", "replicated")]⟩⟩]⟩).2.1 "false"⟩

/-- Claim C3 (default false): for a newly constructed instruction, whose attribute storage is
empty, `HasDisjointReadWriteRegionsAttr` answers false. -/
theorem default_false :
    HloInstruction.fresh.attribute_maps = [] ∧
    HasDisjointReadWriteRegionsAttr HloInstruction.fresh = false := by
  constructor <;> rfl

/-- Claim C4 (setter on a fresh instruction): after `SetDisjointReadWriteRegionsAttr` on an
instruction with zero attribute maps the instruction has one attribute map, and that map has
exactly one entry, `kXlaDisjointReadWriteRegions` mapped to `"true"`; the map that
`frontend_attributes()` exposes has that one entry and nothing else. -/
theorem set_on_fresh :
    HloInstruction.fresh.attribute_maps.length = 0 ∧
    (SetDisjointReadWriteRegionsAttr HloInstruction.fresh).attribute_maps
      = [⟨⟨[(kXlaDisjointReadWriteRegions, "true")]⟩⟩] ∧
    (SetDisjointReadWriteRegionsAttr HloInstruction.fresh).frontend_attributes.map.entries
      = [(kXlaDisjointReadWriteRegions, "true")] := by
  refine ⟨rfl, rfl, ?_⟩
  decide

/-- Claim C5 (orthogonality): when `HasDisjointReadWriteRegionsAttr` answers false for an
instruction and a map has no entry under `kXlaDisjointReadWriteRegions`, the query still
answers false after `add_frontend_attributes` has added that map. -/
theorem orthogonality (instruction : HloInstruction) (attrs : FrontendAttributes)
    (hquery : HasDisjointReadWriteRegionsAttr instruction = false)
    (hattrs : attrs.map.contains kXlaDisjointReadWriteRegions = false) :
    HasDisjointReadWriteRegionsAttr (instruction.add_frontend_attributes attrs) = false := by
  rw [has_add, hquery, hattrs]
  rfl

/-- Witness for claim C5: an instruction that carries a map with the entry
`"_xla_sharding" ↦ "replicated"` receives a map with the entry `"priority" ↦ "7"`. -/
theorem orthogonality_witness :
    HasDisjointReadWriteRegionsAttr ⟨[⟨⟨[("_xla_sharding", "replicated")]⟩⟩]⟩ = false ∧
    (FrontendAttributes.mk ⟨[("priority", "7")]⟩).map.contains kXlaDisjointReadWriteRegions
      = false ∧
    HasDisjointReadWriteRegionsAttr
      (HloInstruction.add_frontend_attributes ⟨[⟨⟨[("_xla_sharding", "replicated")]⟩⟩]⟩
        ⟨⟨[("priority", "7")]⟩⟩) = false :=
  ⟨by decide, by decide, orthogonality _ _ (by decide) (by decide)⟩

/-- Claim C6 (idempotence of effect): after two calls of `SetDisjointReadWriteRegionsAttr`
the query answers true, the answer it gives after one call.  The setter is a total function
without an error result, so the second call cannot signal an error. -/
theorem set_twice_query (instruction : HloInstruction) :
    HasDisjointReadWriteRegionsAttr
      (SetDisjointReadWriteRegionsAttr (SetDisjointReadWriteRegionsAttr instruction)) = true ∧
    HasDisjointReadWriteRegionsAttr
      (SetDisjointReadWriteRegionsAttr (SetDisjointReadWriteRegionsAttr instruction))
      = HasDisjointReadWriteRegionsAttr (SetDisjointReadWriteRegionsAttr instruction) := by
  rw [has_set, has_set]
  exact ⟨rfl, rfl⟩

/-- Claim C7 (append without deduplication): every call of
`SetDisjointReadWriteRegionsAttr` appends one more attribute map with the single entry
`kXlaDisjointReadWriteRegions ↦ "true"` to the instruction's sequence of attribute maps, and
after `n` calls on a fresh instruction the sequence consists of `n` such maps; the duplicates
do no harm, the query answers true as soon as `n` is positive. -/
theorem set_appends_without_dedup :
    (∀ instruction : HloInstruction,
      (SetDisjointReadWriteRegionsAttr instruction).attribute_maps
        = instruction.attribute_maps ++ [⟨⟨[(kXlaDisjointReadWriteRegions, "true")]⟩⟩]) ∧
    (∀ n : Nat,
      (setTimes n HloInstruction.fresh).attribute_maps
        = List.replicate n ⟨⟨[(kXlaDisjointReadWriteRegions, "true")]⟩⟩ ∧
      (setTimes n HloInstruction.fresh).attribute_maps.length = n ∧
      HasDisjointReadWriteRegionsAttr (setTimes n HloInstruction.fresh) = decide (0 < n)) := by
  have step : ∀ instruction : HloInstruction,
      (SetDisjointReadWriteRegionsAttr instruction).attribute_maps
        = instruction.attribute_maps ++ [⟨⟨[(kXlaDisjointReadWriteRegions, "true")]⟩⟩] :=
    fun _ => rfl
  have all : ∀ n : Nat, (setTimes n HloInstruction.fresh).attribute_maps
      = List.replicate n ⟨⟨[(kXlaDisjointReadWriteRegions, "true")]⟩⟩ := by
    intro n
    induction n with
    | zero => rfl
    | succ k ih =>
      show (SetDisjointReadWriteRegionsAttr (setTimes k HloInstruction.fresh)).attribute_maps = _
      rw [step, ih, List.replicate_succ']
  refine ⟨step, fun n => ⟨all n, ?_, ?_⟩⟩
  · rw [all n, List.length_replicate]
  · cases n with
    | zero => rfl
    | succ k =>
      show HasDisjointReadWriteRegionsAttr
        (SetDisjointReadWriteRegionsAttr (setTimes k HloInstruction.fresh)) = _
      rw [has_set]
      simp

/-- Claim C8 (the setter keeps the other attributes): for an attribute name `k` other than
`kXlaDisjointReadWriteRegions`, an entry `k ↦ v` is in some attribute map after
`SetDisjointReadWriteRegionsAttr` exactly when it was in one before, and the map that
`frontend_attributes()` exposes holds `k` after the call exactly when it did before, with the
same value.  The attribute maps the instruction had before the call are all still there,
unchanged and at their places, and with them every entry they hold. -/
theorem set_keeps_other_attributes (instruction : HloInstruction) (k : String)
    (hk : k ≠ kXlaDisjointReadWriteRegions) :
    (∀ v : String,
      (∃ attrs ∈ (SetDisjointReadWriteRegionsAttr instruction).attribute_maps,
          (k, v) ∈ attrs.map.entries) ↔
        ∃ attrs ∈ instruction.attribute_maps, (k, v) ∈ attrs.map.entries) ∧
    (SetDisjointReadWriteRegionsAttr instruction).frontend_attributes.map.contains k
      = instruction.frontend_attributes.map.contains k ∧
    (SetDisjointReadWriteRegionsAttr instruction).frontend_attributes.map.find k
      = instruction.frontend_attributes.map.find k ∧
    (SetDisjointReadWriteRegionsAttr instruction).attribute_maps.take
        instruction.attribute_maps.length = instruction.attribute_maps ∧
    (∀ attrs ∈ instruction.attribute_maps,
      attrs ∈ (SetDisjointReadWriteRegionsAttr instruction).attribute_maps) := by
  have hmaps : (SetDisjointReadWriteRegionsAttr instruction).attribute_maps
      = instruction.attribute_maps ++ [disjointAttrs] := rfl
  have hne : (kXlaDisjointReadWriteRegions == k) = false := by
    simpa using fun h => hk h.symm
  have hne2 : (k == kXlaDisjointReadWriteRegions) = false := by simpa using hk
  refine ⟨?_, ?_, ?_, ?_, ?_⟩
  · intro v
    rw [hmaps]
    constructor
    · rintro ⟨attrs, hattrs, he⟩
      rcases List.mem_append.mp hattrs with h | h
      · exact ⟨attrs, h, he⟩
      · rw [List.mem_singleton] at h
        subst h
        simp only [disjointAttrs, List.mem_singleton, Prod.mk.injEq] at he
        exact absurd he.1 hk
    · rintro ⟨attrs, hattrs, he⟩
      exact ⟨attrs, List.mem_append_left _ hattrs, he⟩
  · rw [set_eq_add, HloInstruction.frontend_attributes_add, StringMap.contains_insertAll]
    simp [disjointAttrs, StringMap.contains, hne]
  · rw [set_eq_add, HloInstruction.frontend_attributes_add, StringMap.find_insertAll]
    simp [disjointAttrs, StringMap.find, List.lookup, hne2]
  · rw [hmaps, List.take_left]
  · intro attrs hattrs
    rw [hmaps]
    exact List.mem_append_left _ hattrs

/-- Witness for claim C8: the instruction carries the map
`{"_xla_sharding" ↦ "replicated"}` and `k` is `"_xla_sharding"`. -/
theorem set_keeps_other_attributes_witness :
    "_xla_sharding" ≠ kXlaDisjointReadWriteRegions ∧
    (SetDisjointReadWriteRegionsAttr
        ⟨[⟨⟨[("_xla_sharding", "replicated")]⟩⟩]⟩).frontend_attributes.map.find "_xla_sharding"
      = (HloInstruction.mk
          [⟨⟨[("_xla_sharding", "replicated")]⟩⟩]).frontend_attributes.map.find "_xla_sharding" :=
  ⟨by decide,
    (set_keeps_other_attributes ⟨[⟨⟨[("_xla_sharding", "replicated")]⟩⟩]⟩ "_xla_sharding"
      (by decide)).2.2.1⟩

/-- Claim C9 (independence): for two distinct instructions `a` and `b`, a call of
`SetDisjointReadWriteRegionsAttr` on `a` changes `a` as the setter says and leaves the
attribute storage of `b` as it was, so `HasDisjointReadWriteRegionsAttr` on `b` answers the
same before and after the call; a fresh `b` still answers false. -/
theorem set_leaves_other_instructions (store : InstructionStore) (a b : Nat) (hab : a ≠ b) :
    (SetDisjointReadWriteRegionsAttrAt store a) a = SetDisjointReadWriteRegionsAttr (store a) ∧
    HasDisjointReadWriteRegionsAttrAt (SetDisjointReadWriteRegionsAttrAt store a) a = true ∧
    (SetDisjointReadWriteRegionsAttrAt store a) b = store b ∧
    HasDisjointReadWriteRegionsAttrAt (SetDisjointReadWriteRegionsAttrAt store a) b
      = HasDisjointReadWriteRegionsAttrAt store b ∧
    (store b = HloInstruction.fresh →
      HasDisjointReadWriteRegionsAttrAt (SetDisjointReadWriteRegionsAttrAt store a) b
        = false) := by
  have h : (SetDisjointReadWriteRegionsAttrAt store a) b = store b := setAt_other store a b hab
  refine ⟨setAt_same store a, ?_, h, ?_, ?_⟩
  · rw [hasAt_eq, setAt_same, has_set]
  · rw [hasAt_eq, hasAt_eq, h]
  · intro hb
    rw [hasAt_eq, h, hb]
    rfl

/-- Witness for claim C9: every address holds a fresh instruction, the
setter is called on address 0 and address 1 is observed. -/
theorem set_leaves_other_instructions_witness :
    (0 : Nat) ≠ 1 ∧
    HasDisjointReadWriteRegionsAttrAt
      (SetDisjointReadWriteRegionsAttrAt (fun _ => HloInstruction.fresh) 0) 0 = true ∧
    HasDisjointReadWriteRegionsAttrAt
      (SetDisjointReadWriteRegionsAttrAt (fun _ => HloInstruction.fresh) 0) 1 = false :=
  ⟨by decide, by decide,
    (set_leaves_other_instructions (fun _ => HloInstruction.fresh) 0 1 (by decide)).2.2.2.2 rfl⟩

/-- Claim C10 (value invariant): in every instruction state reached from a fresh instruction
by calls of `SetDisjointReadWriteRegionsAttr` and additions of attribute maps without an
entry under `kXlaDisjointReadWriteRegions`, every entry under that name, in a stored map or
in the map that `frontend_attributes()` exposes, has the value `"true"`. -/
theorem value_invariant (ops : List AttrOp)
    (hops : ∀ op ∈ ops, op.addsDisjointKey = false) :
    (∀ attrs ∈ (runOps ops HloInstruction.fresh).attribute_maps, ∀ e ∈ attrs.map.entries,
      e.1 = kXlaDisjointReadWriteRegions → e.2 = "true") ∧
    (∀ e ∈ (runOps ops HloInstruction.fresh).frontend_attributes.map.entries,
      e.1 = kXlaDisjointReadWriteRegions → e.2 = "true") ∧
    (∀ v : String,
      (runOps ops HloInstruction.fresh).frontend_attributes.map.find
        kXlaDisjointReadWriteRegions = some v → v = "true") := by
  have h := disjointValueTrue_runOps ops hops
  have hview : ∀ e ∈ (runOps ops HloInstruction.fresh).frontend_attributes.map.entries,
      e.1 = kXlaDisjointReadWriteRegions → e.2 = "true" := by
    intro e he hk
    obtain ⟨attrs, hattrs, hmem⟩ := HloInstruction.mem_frontend_attributes _ e he
    exact h attrs hattrs e hmem hk
  refine ⟨h, hview, ?_⟩
  intro v hv
  exact hview _ (StringMap.mem_of_find _ _ _ hv) rfl

/-- Witness for claim C10: the setter, then the addition of the map
`{"_xla_sharding" ↦ "replicated"}`, then the setter again. -/
theorem value_invariant_witness :
    (∀ op ∈ [AttrOp.set, AttrOp.add ⟨⟨[("_xla_sharding", "replicated")]⟩⟩, AttrOp.set],
      op.addsDisjointKey = false) ∧
    (runOps [AttrOp.set, AttrOp.add ⟨⟨[("_xla_sharding", "replicated")]⟩⟩, AttrOp.set]
        HloInstruction.fresh).frontend_attributes.map.find kXlaDisjointReadWriteRegions
      = some "true" ∧
    (∀ v : String,
      (runOps [AttrOp.set, AttrOp.add ⟨⟨[("_xla_sharding", "replicated")]⟩⟩, AttrOp.set]
        HloInstruction.fresh).frontend_attributes.map.find kXlaDisjointReadWriteRegions
        = some v → v = "true") :=
  ⟨by decide, by decide,
    (value_invariant [AttrOp.set, AttrOp.add ⟨⟨[("_xla_sharding", "replicated")]⟩⟩, AttrOp.set]
      (by decide)).2.2⟩

/-! ## Further facts about the exposed map and about sequences of calls -/

theorem StringMap.insert_of_contains (m : StringMap) (k v : String)
    (h : m.contains k = true) : m.insert k v = m := by
  simp [StringMap.insert, h]

theorem frontend_attributes_set (i : HloInstruction) :
    (SetDisjointReadWriteRegionsAttr i).frontend_attributes
      = ⟨i.frontend_attributes.map.insert kXlaDisjointReadWriteRegions "true"⟩ := by
  rw [set_eq_add, HloInstruction.frontend_attributes_add]
  rfl

theorem frontend_attributes_set_set (i : HloInstruction) :
    (SetDisjointReadWriteRegionsAttr (SetDisjointReadWriteRegionsAttr i)).frontend_attributes
      = (SetDisjointReadWriteRegionsAttr i).frontend_attributes := by
  rw [frontend_attributes_set (SetDisjointReadWriteRegionsAttr i)]
  have h : (SetDisjointReadWriteRegionsAttr i).frontend_attributes.map.contains
      kXlaDisjointReadWriteRegions = true := has_set i
  rw [StringMap.insert_of_contains _ _ _ h]

theorem has_apply_of_has (op : AttrOp) (i : HloInstruction)
    (h : HasDisjointReadWriteRegionsAttr i = true) :
    HasDisjointReadWriteRegionsAttr (op.apply i) = true := by
  cases op with
  | set => exact has_set i
  | add a =>
    show HasDisjointReadWriteRegionsAttr (i.add_frontend_attributes a) = true
    rw [has_add, h, Bool.true_or]

theorem has_runOps_of_has (ops : List AttrOp) (i : HloInstruction)
    (h : HasDisjointReadWriteRegionsAttr i = true) :
    HasDisjointReadWriteRegionsAttr (runOps ops i) = true := by
  induction ops generalizing i with
  | nil => exact h
  | cons op t ih => exact ih (op.apply i) (has_apply_of_has op i h)

theorem StringMap.contains_iff_mem_keys (m : StringMap) (k : String) :
    m.contains k = true ↔ k ∈ m.entries.map Prod.fst := by
  simp [StringMap.contains]

theorem StringMap.nodup_keys_insert (m : StringMap) (k v : String)
    (h : (m.entries.map Prod.fst).Nodup) : ((m.insert k v).entries.map Prod.fst).Nodup := by
  unfold StringMap.insert
  split
  · exact h
  · rename_i hc
    have hk : k ∉ m.entries.map Prod.fst := fun hmem =>
      hc ((StringMap.contains_iff_mem_keys m k).mpr hmem)
    rw [List.map_append, List.nodup_append]
    refine ⟨h, List.nodup_singleton _, ?_⟩
    intro x hx hx2
    rw [List.map_singleton, List.mem_singleton] at hx2
    have hx3 : x = k := hx2
    rw [hx3] at hx
    exact hk hx

theorem StringMap.nodup_keys_insertAll (m other : StringMap)
    (h : (m.entries.map Prod.fst).Nodup) :
    ((m.insertAll other).entries.map Prod.fst).Nodup := by
  obtain ⟨l⟩ := other
  induction l generalizing m with
  | nil => exact h
  | cons e t ih =>
    rw [StringMap.insertAll_cons]
    exact ih _ (StringMap.nodup_keys_insert m e.1 e.2 h)

theorem nodup_keys_frontend_attributes (i : HloInstruction) :
    (i.frontend_attributes.map.entries.map Prod.fst).Nodup := by
  obtain ⟨l⟩ := i
  induction l using List.reverseRecOn with
  | nil => exact List.nodup_nil
  | append_singleton t a ih =>
    have hadd := HloInstruction.frontend_attributes_add ⟨t⟩ a
    simp only [HloInstruction.add_frontend_attributes] at hadd
    rw [hadd]
    exact StringMap.nodup_keys_insertAll _ _ ih

theorem frontend_attributes_setTimes (n : Nat) (i : HloInstruction) :
    (setTimes (n + 1) i).frontend_attributes
      = (SetDisjointReadWriteRegionsAttr i).frontend_attributes := by
  induction n with
  | zero => rfl
  | succ k ih =>
    show (SetDisjointReadWriteRegionsAttr (setTimes (k + 1) i)).frontend_attributes = _
    rw [frontend_attributes_set, ih, ← frontend_attributes_set, frontend_attributes_set_set]

/-! ## The claims, continued -/

/-- Claim C11 (the query is a pure, total read): the call of
`HasDisjointReadWriteRegionsAttr` on the instruction at any address gives a boolean, there is
no error result; the answer is the query's answer on that instruction, and it is false when
no attribute map has the key; the store after the call is the store before it, for the
instruction asked about and for every other one; a second call gives the same answer as the
first. -/
theorem query_is_pure_total_read (store : InstructionStore) (p : Nat) :
    ((HasDisjointReadWriteRegionsAttrCall store p).1 = true ∨
      (HasDisjointReadWriteRegionsAttrCall store p).1 = false) ∧
    (HasDisjointReadWriteRegionsAttrCall store p).1 = HasDisjointReadWriteRegionsAttr (store p) ∧
    ((∀ attrs ∈ (store p).attribute_maps,
        attrs.map.contains kXlaDisjointReadWriteRegions = false) →
      (HasDisjointReadWriteRegionsAttrCall store p).1 = false) ∧
    (HasDisjointReadWriteRegionsAttrCall store p).2 = store ∧
    (∀ q : Nat, ((HasDisjointReadWriteRegionsAttrCall store p).2 q).attribute_maps
      = (store q).attribute_maps) ∧
    (HasDisjointReadWriteRegionsAttrCall (HasDisjointReadWriteRegionsAttrCall store p).2 p).1
      = (HasDisjointReadWriteRegionsAttrCall store p).1 := by
  refine ⟨?_, rfl, ?_, hasCall_store store p, ?_, ?_⟩
  · cases h : (HasDisjointReadWriteRegionsAttrCall store p).1
    · exact Or.inr rfl
    · exact Or.inl rfl
  · intro habsent
    show HasDisjointReadWriteRegionsAttr (store p) = false
    rw [HasDisjointReadWriteRegionsAttr, HloInstruction.frontend_attributes_contains,
      List.any_eq_false]
    intro attrs hattrs
    simp [habsent attrs hattrs]
  · intro q
    rw [hasCall_store]
  · rw [hasCall_store]

/-- Witness for claim C11: address 0 holds an instruction whose only entry is
`"_xla_sharding" ↦ "replicated"`; the key is absent and the query answers false. -/
theorem query_is_pure_total_read_witness :
    (∀ attrs ∈ (HloInstruction.mk [⟨⟨[("_xla_sharding", "replicated")]⟩⟩]).attribute_maps,
      attrs.map.contains kXlaDisjointReadWriteRegions = false) ∧
    (HasDisjointReadWriteRegionsAttrCall
      (fun _ => ⟨[⟨⟨[("_xla_sharding", "replicated")]⟩⟩]⟩) 0).1 = false :=
  ⟨by decide,
    (query_is_pure_total_read (fun _ => ⟨[⟨⟨[("_xla_sharding", "replicated")]⟩⟩]⟩) 0).2.2.1
      (by decide)⟩

/-- Claim C12 (the order of additions is not observable by the query): for every instruction
and any two attribute maps `a` and `b`, with or without the key,
`HasDisjointReadWriteRegionsAttr` answers the same after adding `a` then `b` as after adding
`b` then `a`; the same holds when one of the two additions is the setter's. -/
theorem query_ignores_order_of_additions (instruction : HloInstruction)
    (a b : FrontendAttributes) :
    HasDisjointReadWriteRegionsAttr
        ((instruction.add_frontend_attributes a).add_frontend_attributes b)
      = HasDisjointReadWriteRegionsAttr
        ((instruction.add_frontend_attributes b).add_frontend_attributes a) ∧
    HasDisjointReadWriteRegionsAttr
        (SetDisjointReadWriteRegionsAttr (instruction.add_frontend_attributes a))
      = HasDisjointReadWriteRegionsAttr
        ((SetDisjointReadWriteRegionsAttr instruction).add_frontend_attributes a) := by
  constructor
  · simp only [has_add, Bool.or_assoc]
    rw [Bool.or_comm (a.map.contains kXlaDisjointReadWriteRegions)]
  · rw [has_set, has_add, has_set, Bool.true_or]

/-- Claim C13 (idempotence of the attribute state the instruction exposes): the instruction
exposes a single attribute map, `frontend_attributes().map()`, and after a call of
`SetDisjointReadWriteRegionsAttr` that map is the map exposed before with the setter's
one-entry map merged into it.  The map exposed after two calls is equal to the map exposed
after one call, and so is the map exposed after any further number of calls; no second entry
becomes visible: the exposed map lists `kXlaDisjointReadWriteRegions` exactly once. -/
theorem set_twice_exposed_map (instruction : HloInstruction) :
    (SetDisjointReadWriteRegionsAttr
        (SetDisjointReadWriteRegionsAttr instruction)).frontend_attributes
      = (SetDisjointReadWriteRegionsAttr instruction).frontend_attributes ∧
    (SetDisjointReadWriteRegionsAttr instruction).frontend_attributes.map
      = instruction.frontend_attributes.map.insertAll
          ⟨[(kXlaDisjointReadWriteRegions, "true")]⟩ ∧
    (∀ n : Nat, (setTimes (n + 1) instruction).frontend_attributes
      = (SetDisjointReadWriteRegionsAttr instruction).frontend_attributes) ∧
    ((SetDisjointReadWriteRegionsAttr
        (SetDisjointReadWriteRegionsAttr instruction)).frontend_attributes.map.entries.map
          Prod.fst).count kXlaDisjointReadWriteRegions = 1 ∧
    (SetDisjointReadWriteRegionsAttr
        (SetDisjointReadWriteRegionsAttr instruction)).frontend_attributes.map.entries.length
      = (SetDisjointReadWriteRegionsAttr instruction).frontend_attributes.map.entries.length := by
  refine ⟨frontend_attributes_set_set instruction, ?_,
    fun n => frontend_attributes_setTimes n instruction, ?_, ?_⟩
  · rw [frontend_attributes_set]
    rfl
  · refine List.count_eq_one_of_mem (nodup_keys_frontend_attributes _) ?_
    exact (StringMap.contains_iff_mem_keys _ _).mp
      (has_set (SetDisjointReadWriteRegionsAttr instruction))
  · rw [frontend_attributes_set_set instruction]

/-- Claim C14 (the flag is sticky): once `HasDisjointReadWriteRegionsAttr` answers true for an
instruction, it answers true after any further sequence of calls of
`SetDisjointReadWriteRegionsAttr` and additions of arbitrary attribute maps. -/
theorem flag_is_sticky (instruction : HloInstruction) (ops : List AttrOp)
    (hquery : HasDisjointReadWriteRegionsAttr instruction = true) :
    HasDisjointReadWriteRegionsAttr (runOps ops instruction) = true :=
  has_runOps_of_has ops instruction hquery

/-- Witness for claim C14: the instruction holds the key with the value `"false"`; a map
without the key is added, the setter is called, and a map that holds the key with the value
`"no"` is added. -/
theorem flag_is_sticky_witness :
    HasDisjointReadWriteRegionsAttr ⟨[⟨⟨[(kXlaDisjointReadWriteRegions, "false")]⟩⟩]⟩ = true ∧
    HasDisjointReadWriteRegionsAttr
      (runOps [AttrOp.add ⟨⟨[("_xla_sharding", "replicated")]⟩⟩, AttrOp.set,
          AttrOp.add ⟨⟨[(kXlaDisjointReadWriteRegions, "no")]⟩⟩]
        ⟨[⟨⟨[(kXlaDisjointReadWriteRegions, "false")]⟩⟩]⟩) = true :=
  ⟨by decide, flag_is_sticky _ _ (by decide)⟩

/-- Claim C15 (the setter depends on the prior attributes only and writes one fixed entry):
on every instruction the setter adds the same map, the single pair
`kXlaDisjointReadWriteRegions ↦ "true"`; for two instructions that expose equal attributes
the attributes exposed after the call are equal, and for two instructions with equal stored
attribute maps the stored attribute maps after the call are equal. -/
theorem setter_writes_fixed_entry (i j : HloInstruction)
    (hexposed : i.frontend_attributes = j.frontend_attributes) :
    SetDisjointReadWriteRegionsAttr i
      = i.add_frontend_attributes ⟨⟨[(kXlaDisjointReadWriteRegions, "true")]⟩⟩ ∧
    SetDisjointReadWriteRegionsAttr j
      = j.add_frontend_attributes ⟨⟨[(kXlaDisjointReadWriteRegions, "true")]⟩⟩ ∧
    (SetDisjointReadWriteRegionsAttr i).frontend_attributes
      = (SetDisjointReadWriteRegionsAttr j).frontend_attributes ∧
    (i.attribute_maps = j.attribute_maps →
      (SetDisjointReadWriteRegionsAttr i).attribute_maps
        = (SetDisjointReadWriteRegionsAttr j).attribute_maps) := by
  refine ⟨rfl, rfl, ?_, ?_⟩
  · rw [frontend_attributes_set, frontend_attributes_set, hexposed]
  · intro hstored
    show i.attribute_maps ++ [disjointAttrs] = j.attribute_maps ++ [disjointAttrs]
    rw [hstored]

/-- Witness for claim C15: one instruction stores the entries `"a" ↦ "1"` and `"b" ↦ "2"` in
two maps, the other stores them in one map; both expose the same attributes, before and
after the setter. -/
theorem setter_writes_fixed_entry_witness :
    (HloInstruction.mk [⟨⟨[("a", "1")]⟩⟩, ⟨⟨[("b", "2")]⟩⟩]).frontend_attributes
      = (HloInstruction.mk [⟨⟨[("a", "1"), ("b", "2")]⟩⟩]).frontend_attributes ∧
    (SetDisjointReadWriteRegionsAttr
        ⟨[⟨⟨[("a", "1")]⟩⟩, ⟨⟨[("b", "2")]⟩⟩]⟩).frontend_attributes
      = (SetDisjointReadWriteRegionsAttr ⟨[⟨⟨[("a", "1"), ("b", "2")]⟩⟩]⟩).frontend_attributes :=
  ⟨by decide,
    (setter_writes_fixed_entry ⟨[⟨⟨[("a", "1")]⟩⟩, ⟨⟨[("b", "2")]⟩⟩]⟩
      ⟨[⟨⟨[("a", "1"), ("b", "2")]⟩⟩]⟩ (by decide)).2.2.1⟩

end xla
